import Mathlib

set_option autoImplicit false

namespace IntelliStore

/-
Shallow embedding of the IntelliStore repository.

Go maps (`map[string]*T`) are modelled as association lists
`List (String × T)`; `mapGet`, `mapInsert`, `mapErase` and `mapUpdate`
mirror Go map read, assignment, `delete`, and in-place mutation through
a looked-up pointer.  Go `int64` and `time.Time` instants are modelled
as `Int`; byte strings as `List Nat`.
-/

def mapGet {α : Type} : List (String × α) → String → Option α
  | [], _ => none
  | p :: rest, k => if p.1 = k then some p.2 else mapGet rest k

def mapInsert {α : Type} : List (String × α) → String → α → List (String × α)
  | [], k, v => [(k, v)]
  | p :: rest, k, v => if p.1 = k then (k, v) :: rest else p :: mapInsert rest k v

def mapErase {α : Type} : List (String × α) → String → List (String × α)
  | [], _ => []
  | p :: rest, k => if p.1 = k then mapErase rest k else p :: mapErase rest k

def mapUpdate {α : Type} (m : List (String × α)) (k : String) (f : α → α) :
    List (String × α) :=
  m.map (fun p => if p.1 = k then (p.1, f p.2) else p)

def mapKeys {α : Type} (m : List (String × α)) : List String := m.map Prod.fst

/-
Metadata FSM (Go package `metadata`, file with `FSM`, `Apply`,
`applyCreateBucket`, ..., `Snapshot`, `Restore`, `Persist`).
-/

/-- ShardInfo mirrors the Go struct of the same name. -/
structure ShardInfo where
  shardId : String
  nodeId : String
  nodeAddr : String
  shardType : String
  index : Int
  size : Int
  checksum : String
deriving DecidableEq

/-- ObjectMetadata mirrors the Go struct of the same name. -/
structure ObjectMetadata where
  bucketName : String
  objectKey : String
  size : Int
  tier : String
  createdAt : Int
  lastAccessed : Int
  shards : List ShardInfo
  encryptionKey : String
  checksum : String
  contentType : String
  metadata : List (String × String)
deriving DecidableEq

/-- BucketMetadata mirrors the Go struct of the same name. -/
structure BucketMetadata where
  name : String
  createdAt : Int
  owner : String
  acl : List (String × String)
  objectCount : Int
  totalSize : Int
  metadata : List (String × String)
deriving DecidableEq

/-- The in-memory state of the FSM: the `objects` and `buckets` maps. -/
structure FSMState where
  objects : List (String × ObjectMetadata)
  buckets : List (String × BucketMetadata)
deriving DecidableEq

/-- The state of a freshly constructed FSM (`NewFSM`). -/
def emptyFSM : FSMState := { objects := [], buckets := [] }

/--
Payload of a command.  In Go the payload is an untyped
`map[string]interface{}`; each `apply*` function reads a fixed set of
fields from it, so the payload shapes actually consumed are the five
constructors below.  A payload of the wrong shape makes the Go
`data.(map[string]interface{})` assertion fail, which the `apply*`
functions surface as an "invalid ... data" error.
-/
inductive CommandData where
  | bucketData (name : String) (owner : String) (acl : Option (List (String × String)))
  | bucketRef (name : String)
  | objectData (bucketName : String) (objectKey : String) (size : Int) (tier : String)
      (checksum : String) (contentType : String) (encryptionKey : Option String)
      (shards : Option (List ShardInfo))
  | objectPatch (bucketName : String) (objectKey : String)
      (tier : Option String) (lastAccessed : Option Int)
  | objectRef (bucketName : String) (objectKey : String)
deriving DecidableEq

/-- A command as unmarshalled from a Raft log entry: a `type` tag and a payload. -/
structure Command where
  type : String
  data : CommandData
deriving DecidableEq

/-- The composite key `fmt.Sprintf("%s/%s", bucketName, objectKey)`. -/
def objKey (bucketName objectKey : String) : String := bucketName ++ "/" ++ objectKey

/--
`applyCreateBucket`.  `now` stands for the value of `time.Now()` at the
moment the entry is applied (the local wall clock).  Note the Go code
stores the new bucket unconditionally: an existing bucket with the same
name is overwritten by a fresh one with zeroed counters.
-/
def applyCreateBucket (s : FSMState) (now : Int) (data : CommandData) :
    FSMState × Option String :=
  match data with
  | .bucketData name owner acl =>
    let bucket : BucketMetadata :=
      { name := name, createdAt := now, owner := owner, acl := acl.getD [],
        objectCount := 0, totalSize := 0, metadata := [] }
    ({ s with buckets := mapInsert s.buckets bucket.name bucket }, none)
  | _ => (s, some "invalid bucket data")

/-- `applyDeleteBucket`: drops the bucket and every object whose `BucketName` matches. -/
def applyDeleteBucket (s : FSMState) (data : CommandData) :
    FSMState × Option String :=
  match data with
  | .bucketRef name =>
    ({ objects := s.objects.filter (fun p => !(p.2.bucketName == name)),
       buckets := mapErase s.buckets name }, none)
  | _ => (s, some "invalid bucket data")

/--
`applyCreateObject`: stores the object under `bucketName ++ "/" ++ objectKey`
(overwriting any existing entry) and, when the bucket exists, bumps its
counters.  `CreatedAt` and `LastAccessed` are both `time.Now()` (`now`). -/
def applyCreateObject (s : FSMState) (now : Int) (data : CommandData) :
    FSMState × Option String :=
  match data with
  | .objectData bucketName objectKey size tier checksum contentType encryptionKey shards =>
    let object : ObjectMetadata :=
      { bucketName := bucketName, objectKey := objectKey, size := size, tier := tier,
        createdAt := now, lastAccessed := now, shards := shards.getD [],
        encryptionKey := encryptionKey.getD "", checksum := checksum,
        contentType := contentType, metadata := [] }
    ({ objects := mapInsert s.objects (objKey object.bucketName object.objectKey) object,
       buckets := mapUpdate s.buckets object.bucketName
         (fun b => { b with objectCount := b.objectCount + 1,
                            totalSize := b.totalSize + object.size }) }, none)
  | _ => (s, some "invalid object data")

/-- `applyUpdateObject`: patches `Tier` and/or `LastAccessed` when the object exists. -/
def applyUpdateObject (s : FSMState) (data : CommandData) :
    FSMState × Option String :=
  match data with
  | .objectPatch bucketName objectKey tier lastAccessed =>
    let patch : ObjectMetadata → ObjectMetadata := fun o =>
      { o with tier := tier.getD o.tier,
               lastAccessed := lastAccessed.getD o.lastAccessed }
    ({ s with objects := mapUpdate s.objects (objKey bucketName objectKey) patch }, none)
  | _ => (s, some "invalid object data")

/-- `applyDeleteObject`: when the object exists, decrements the bucket counters
(if the bucket named in the command exists) and removes the object. -/
def applyDeleteObject (s : FSMState) (data : CommandData) :
    FSMState × Option String :=
  match data with
  | .objectRef bucketName objectKey =>
    match mapGet s.objects (objKey bucketName objectKey) with
    | some o =>
      ({ objects := mapErase s.objects (objKey bucketName objectKey),
         buckets := mapUpdate s.buckets bucketName
           (fun b => { b with objectCount := b.objectCount - 1,
                              totalSize := b.totalSize - o.size }) }, none)
    | none => (s, none)
  | _ => (s, some "invalid object data")

/-- `applyUpdateAccessTime`: sets `LastAccessed = time.Now()` (`now`) when the object exists. -/
def applyUpdateAccessTime (s : FSMState) (now : Int) (data : CommandData) :
    FSMState × Option String :=
  match data with
  | .objectRef bucketName objectKey =>
    let touch : ObjectMetadata → ObjectMetadata := fun o => { o with lastAccessed := now }
    ({ s with objects := mapUpdate s.objects (objKey bucketName objectKey) touch }, none)
  | _ => (s, some "invalid object data")

/--
`FSM.Apply`.  The raw log bytes are modelled post-`json.Unmarshal` as an
`Option Command` (`none` = unmarshal failure).  `now` is the local wall
clock (`time.Now()`) at apply time; the Go code reads it inside
`applyCreateObject` / `applyCreateBucket` / `applyUpdateAccessTime`.
The second component is the error value returned by `Apply`. -/
def Apply (s : FSMState) (now : Int) (log : Option Command) :
    FSMState × Option String :=
  match log with
  | none => (s, some "failed to unmarshal command")
  | some cmd =>
    if cmd.type = "create_bucket" then applyCreateBucket s now cmd.data
    else if cmd.type = "delete_bucket" then applyDeleteBucket s cmd.data
    else if cmd.type = "create_object" then applyCreateObject s now cmd.data
    else if cmd.type = "update_object" then applyUpdateObject s cmd.data
    else if cmd.type = "delete_object" then applyDeleteObject s cmd.data
    else if cmd.type = "update_access_time" then applyUpdateAccessTime s now cmd.data
    else (s, some ("unknown command type: " ++ cmd.type))

/-- Fold a list of `(apply-time clock, command)` entries through `Apply`. -/
def applyCmds (s : FSMState) (entries : List (Int × Command)) : FSMState :=
  entries.foldl (fun st e => (Apply st e.1 (some e.2)).1) s

/-- `fsmSnapshot`: the deep copy of the two maps taken by `FSM.Snapshot`. -/
structure FSMSnapshotData where
  objects : List (String × ObjectMetadata)
  buckets : List (String × BucketMetadata)
deriving DecidableEq

/-- The `for k, v := range m` copy loop in `FSM.Snapshot`: each entry of the
source map is assigned into a fresh empty map. -/
def copyMap {α : Type} (m : List (String × α)) : List (String × α) :=
  m.foldl (fun acc p => mapInsert acc p.1 p.2) []

/-- `FSM.Snapshot`. -/
def Snapshot (s : FSMState) : FSMSnapshotData :=
  { objects := copyMap s.objects, buckets := copyMap s.buckets }

/-- The serialized document written by `fsmSnapshot.Persist`: a single
struct holding both maps (JSON encoding/decoding of this struct is
modelled as faithful). -/
structure PersistedState where
  objects : List (String × ObjectMetadata)
  buckets : List (String × BucketMetadata)
deriving DecidableEq

/-- `fsmSnapshot.Persist`. -/
def Persist (snap : FSMSnapshotData) : PersistedState :=
  { objects := snap.objects, buckets := snap.buckets }

/-- `FSM.Restore`: replaces both maps of the receiver wholesale. -/
def Restore (f : FSMState) (p : PersistedState) : FSMState :=
  { f with objects := p.objects, buckets := p.buckets }

/-
Validity of a command at a state, after the spec's rejection-condition
table: `create_bucket` requires an absent name, `create_object` requires
an existing bucket and an absent object.  The slash-freedom conditions
are forced on us by the Go key scheme `bucketName ++ "/" ++ objectKey`:
without them two distinct (bucket, key) pairs can collide on one
composite key and the counters drift.
-/

/-- The string contains no '/' character. -/
def slashFree (s : String) : Prop := ('/' : Char) ∉ s.data

instance instDecSlashFree (s : String) : Decidable (slashFree s) :=
  inferInstanceAs (Decidable (('/' : Char) ∉ s.data))

/-- Validity of one command at a state (spec rejection-condition table,
plus slash-freedom of bucket names). -/
def ValidStep (s : FSMState) (c : Command) : Prop :=
  match c.type, c.data with
  | "create_bucket", .bucketData name _ _ =>
      mapGet s.buckets name = none ∧ slashFree name
  | "create_object", .objectData bucketName objectKey _ _ _ _ _ _ =>
      (mapGet s.buckets bucketName).isSome = true ∧
      mapGet s.objects (objKey bucketName objectKey) = none
  | "delete_object", .objectRef bucketName _ => slashFree bucketName
  | _, _ => True

instance instDecValidStep (s : FSMState) (c : Command) : Decidable (ValidStep s c) := by
  unfold ValidStep
  split <;> exact inferInstance

/-- Validity of a command sequence: each command is valid at the state it
is applied to. -/
def ValidSeq : FSMState → List (Int × Command) → Prop
  | _, [] => True
  | s, e :: rest => ValidStep s e.2 ∧ ValidSeq (Apply s e.1 (some e.2)).1 rest

def decValidSeq : (s : FSMState) → (l : List (Int × Command)) → Decidable (ValidSeq s l)
  | _, [] => isTrue trivial
  | s, e :: rest =>
    have : Decidable (ValidSeq (Apply s e.1 (some e.2)).1 rest) := decValidSeq _ rest
    instDecidableAnd

attribute [instance] decValidSeq

/-- Number of stored objects whose `bucketName` is `bname`. -/
def objCountIn (objects : List (String × ObjectMetadata)) (bname : String) : Nat :=
  (objects.filter (fun p => p.2.bucketName == bname)).length

/-- Total size of the stored objects whose `bucketName` is `bname`. -/
def sizeSumIn (objects : List (String × ObjectMetadata)) (bname : String) : Int :=
  ((objects.filter (fun p => p.2.bucketName == bname)).map (fun p => p.2.size)).sum

/-- Spec invariant I1: every bucket's counters agree with the stored objects. -/
def CountersAccurate (s : FSMState) : Prop :=
  ∀ p ∈ s.buckets, p.2.objectCount = (objCountIn s.objects p.2.name : Int) ∧
    p.2.totalSize = sizeSumIn s.objects p.2.name

instance instDecCountersAccurate (s : FSMState) : Decidable (CountersAccurate s) :=
  inferInstanceAs (Decidable (∀ p ∈ s.buckets, _ ∧ _))

/-- The inductive invariant carried through valid command sequences. -/
def Inv (s : FSMState) : Prop :=
  (∀ p ∈ s.buckets, p.1 = p.2.name ∧ slashFree p.2.name) ∧
  (∀ p ∈ s.objects, p.1 = objKey p.2.bucketName p.2.objectKey ∧
      slashFree p.2.bucketName ∧ (mapGet s.buckets p.2.bucketName).isSome = true) ∧
  (mapKeys s.objects).Nodup ∧
  CountersAccurate s

/-
Erasure codec (Go package with `Encoder`, `EncodeData`, `DecodeShards`).

The `github.com/klauspost/reedsolomon` library is external to the
repository; it is modelled as an abstract `RSCode` whose operations the
theorems constrain through hypotheses stating the library's documented
contract (parity is a deterministic function of the data shards,
`Reconstruct` restores the codeword whenever at least `dataShards`
shards are present, `Verify` accepts a codeword).
-/

/-- Abstract Reed-Solomon backend (`reedsolomon.Encoder`). -/
structure RSCode where
  addParity : List (List Nat) → List (List Nat)
  reconstruct : List (Option (List Nat)) → Option (List (List Nat))
  verify : List (List Nat) → Bool

/-- Mirrors the Go `Encoder` struct (the `shardSize` field is not read by
`EncodeData`, which recomputes the shard size from the data length). -/
structure Encoder where
  dataShards : Nat
  parityShards : Nat
  shardSize : Nat
  rs : RSCode

/-- Error outcomes of `EncodeData` / `DecodeShards`. -/
inductive RSErr where
  | emptyData
  | insufficientShards
  | reconstructFailed
  | verifyFailed
  | invalidShardCount
deriving DecidableEq

/-- Zero-pad a byte list on the right to length `s`
(the `make([]byte, shardSize)` plus `copy` idiom). -/
def padTo (s : Nat) (l : List Nat) : List Nat := l ++ List.replicate (s - l.length) 0

/-- The data-shard loop of `EncodeData`: shard `i` is
`data[i*s : min((i+1)*s, len)]` zero-padded to length `s`. -/
def dataShardsOf (s : Nat) : Nat → List Nat → List (List Nat)
  | 0, _ => []
  | k + 1, data => padTo s (data.take s) :: dataShardsOf s k (data.drop s)

/-- `Encoder.EncodeData`: split into `dataShards` zero-padded shards of
size `⌈len/dataShards⌉` and append the parity shards computed by the
Reed-Solomon backend. -/
def EncodeData (e : Encoder) (data : List Nat) : Except RSErr (List (List Nat)) :=
  if data.length = 0 then .error .emptyData
  else
    let s := (data.length + e.dataShards - 1) / e.dataShards
    let dshards := dataShardsOf s e.dataShards data
    .ok (dshards ++ e.rs.addParity dshards)

/-- `Encoder.DecodeShards`: check the shard count, require at least
`dataShards` non-null shards, reconstruct, verify, then concatenate the
first `dataShards` shards and trim to `originalSize`. -/
def DecodeShards (e : Encoder) (shards : List (Option (List Nat))) (originalSize : Nat) :
    Except RSErr (List Nat) :=
  if shards.length ≠ e.dataShards + e.parityShards then .error .invalidShardCount
  else if (shards.filter (fun sh => sh.isSome)).length < e.dataShards then
    .error .insufficientShards
  else
    match e.rs.reconstruct shards with
    | none => .error .reconstructFailed
    | some full =>
      if e.rs.verify full then
        .ok (((full.take e.dataShards).foldl (fun acc sh => acc ++ sh) []).take originalSize)
      else .error .verifyFailed

/-- Null out the shards whose index lies in `L` ("the shards at indices
in `L` replaced by null"). -/
def maskShards (L : List Nat) (shards : List (List Nat)) : List (Option (List Nat)) :=
  shards.enum.map (fun p => if p.1 ∈ L then none else some p.2)

/-
Client-side encryption (`encryptData` / `decryptData` in
`intellistore-core/cmd/client/main.go`).

AES-GCM comes from the Go standard library; it is modelled as an
abstract AEAD whose `sealAE`/`openAE` the theorems constrain through
hypotheses stating the standard AEAD contract.  Keys are modelled
post-`hex.DecodeString` as byte lists; `aes.NewCipher` accepts key
lengths 16, 24 and 32; `gcm.NonceSize()` is 12.  The fresh random nonce
drawn from `rand.Reader` is passed as an explicit argument.
-/

/-- Abstract AEAD (Go `cipher.AEAD`): `sealAE key nonce plaintext` and
`openAE key nonce ciphertext`. -/
structure AEAD where
  sealAE : List Nat → List Nat → List Nat → List Nat
  openAE : List Nat → List Nat → List Nat → Option (List Nat)

/-- Error outcomes of `encryptData` / `decryptData`. -/
inductive CryptoErr where
  | invalidKeySize
  | ciphertextTooShort
  | authFailed
deriving DecidableEq

/-- `encryptData`: `gcm.Seal(nonce, nonce, data, nil)` returns the nonce
with the sealed ciphertext appended. -/
def encryptData (g : AEAD) (data key nonce : List Nat) : Except CryptoErr (List Nat) :=
  if key.length = 16 ∨ key.length = 24 ∨ key.length = 32 then
    .ok (nonce ++ g.sealAE key nonce data)
  else .error .invalidKeySize

/-- `decryptData`: reject inputs shorter than the nonce, split off the
12-byte nonce, and open the rest. -/
def decryptData (g : AEAD) (encryptedData key : List Nat) : Except CryptoErr (List Nat) :=
  if key.length = 16 ∨ key.length = 24 ∨ key.length = 32 then
    if encryptedData.length < 12 then .error .ciphertextTooShort
    else
      match g.openAE key (encryptedData.take 12) (encryptedData.drop 12) with
      | some pt => .ok pt
      | none => .error .authFailed
  else .error .invalidKeySize

/-
Metadata HTTP API (`API.handleCreateBucket` / `API.redirectToLeader`).
-/

/-- Raft node state as exposed by `raft.State()`. -/
inductive RaftState where
  | follower
  | candidate
  | leader
deriving DecidableEq

/-- The parts of the HTTP response the claims talk about. -/
structure HttpResponse where
  status : Nat
  location : Option String
deriving DecidableEq

/-- The decoded body of `POST /buckets`. -/
structure CreateBucketReq where
  name : String
  owner : String
  acl : List (String × String)
deriving DecidableEq

/-- `API.redirectToLeader`: 503 when no leader is known, otherwise 307
with `Location` = the leader's HTTP address plus the request path. -/
def redirectToLeader (leader : String) (path : String) : HttpResponse :=
  if leader = "" then { status := 503, location := none }
  else { status := 307, location := some ("http://" ++ leader ++ path) }

/--
`API.handleCreateBucket`.  `body` is the request body
post-`json.Decode` (`none` = invalid JSON); `applyErr` is the outcome of
`future.Error()` for the Raft apply (the FSM's own return value is never
inspected by the handler).  The second component lists the commands the
handler submitted to Raft.
-/
def handleCreateBucket (rs : RaftState) (leader : String) (path : String)
    (body : Option CreateBucketReq) (applyErr : Option String) :
    HttpResponse × List Command :=
  match body with
  | none => ({ status := 400, location := none }, [])
  | some req =>
    if req.name = "" then ({ status := 400, location := none }, [])
    else if rs ≠ RaftState.leader then (redirectToLeader leader path, [])
    else
      let cmd : Command :=
        { type := "create_bucket", data := .bucketData req.name req.owner (some req.acl) }
      match applyErr with
      | some _ => ({ status := 500, location := none }, [cmd])
      | none => ({ status := 201, location := none }, [cmd])

/-
Tier controller (`Controller.processMigrationRequest`; the k8s-job and
HTTP-submission variants share the same skip logic).  Go `float64`
confidence values are modelled as rationals; the threshold literal
`0.8` is `4/5`.
-/

/-- The fields of `TieringRequest` the skip logic reads. -/
structure TieringRequest where
  bucketName : String
  objectKey : String
  currentTier : String
  recommendedTier : String
  confidence : ℚ
deriving DecidableEq

/-- The migration counters touched by `processMigrationRequest`. -/
structure MigMetrics where
  processed : Nat
  skipped : Nat
  jobsCreated : Nat
  jobsCreationFailed : Nat
deriving DecidableEq

/-- Outcome of the environment steps after the checks pass: building the
job can fail locally, the submission call can fail, or succeed. -/
inductive SubmitOutcome where
  | buildError
  | submitError
  | submitted
deriving DecidableEq

/-- `Controller.processMigrationRequest`: returns the updated counters
and whether a migration submission (k8s `Jobs.Create` / HTTP `POST
/api/v1/migrate`) was issued. -/
def processMigrationRequest (req : TieringRequest) (outcome : SubmitOutcome)
    (m : MigMetrics) : MigMetrics × Bool :=
  let m1 := { m with processed := m.processed + 1 }
  if req.currentTier = req.recommendedTier then
    ({ m1 with skipped := m1.skipped + 1 }, false)
  else if req.confidence < (4 : ℚ) / 5 then
    ({ m1 with skipped := m1.skipped + 1 }, false)
  else
    match outcome with
    | .buildError => ({ m1 with jobsCreationFailed := m1.jobsCreationFailed + 1 }, false)
    | .submitError => ({ m1 with jobsCreationFailed := m1.jobsCreationFailed + 1 }, true)
    | .submitted => ({ m1 with jobsCreated := m1.jobsCreated + 1 }, true)

/- Helper lemmas about the association-list map model. -/

theorem mapGet_mapInsert {α : Type} (m : List (String × α)) (k j : String) (v : α) :
    mapGet (mapInsert m k v) j = if j = k then some v else mapGet m j := by
  induction m with
  | nil =>
    by_cases hjk : j = k
    · subst hjk; simp [mapInsert, mapGet]
    · simp [mapInsert, mapGet, hjk, Ne.symm hjk]
  | cons p rest ih =>
    by_cases hpk : p.1 = k
    · by_cases hjk : j = k
      · subst hjk; simp [mapInsert, mapGet, hpk]
      · have hpj : ¬ p.1 = j := by rw [hpk]; exact fun h => hjk h.symm
        simp [mapInsert, mapGet, hpk, hjk, hpj, Ne.symm hjk]
    · by_cases hjk : j = k
      · subst hjk; simp [mapInsert, mapGet, hpk, ih]
      · simp [mapInsert, mapGet, hpk, hjk, ih]

theorem mapGet_eq_none_iff {α : Type} (m : List (String × α)) (k : String) :
    mapGet m k = none ↔ k ∉ mapKeys m := by
  induction m with
  | nil => simp [mapGet, mapKeys]
  | cons p rest ih =>
    by_cases hpk : p.1 = k
    · subst hpk; simp [mapGet, mapKeys]
    · simp [mapGet, mapKeys, hpk, Ne.symm hpk] at ih ⊢
      exact ih

theorem mapGet_mem {α : Type} {m : List (String × α)} {k : String} {v : α}
    (h : mapGet m k = some v) : (k, v) ∈ m := by
  induction m with
  | nil => simp [mapGet] at h
  | cons p rest ih =>
    rcases p with ⟨pk, pv⟩
    by_cases hpk : pk = k
    · simp [mapGet, hpk] at h
      subst hpk h
      exact List.mem_cons_self _ _
    · simp only [mapGet] at h
      rw [if_neg hpk] at h
      exact List.mem_cons_of_mem _ (ih h)

theorem mapInsert_of_get_none {α : Type} {m : List (String × α)} {k : String}
    (v : α) (h : mapGet m k = none) : mapInsert m k v = m ++ [(k, v)] := by
  induction m with
  | nil => simp [mapInsert]
  | cons p rest ih =>
    by_cases hpk : p.1 = k
    · simp [mapGet, hpk] at h
    · simp only [mapGet] at h
      rw [if_neg hpk] at h
      simp [mapInsert, hpk, ih h]

theorem mapGet_mapUpdate {α : Type} (m : List (String × α)) (k j : String) (f : α → α) :
    mapGet (mapUpdate m k f) j =
      if j = k then Option.map f (mapGet m j) else mapGet m j := by
  induction m with
  | nil => simp [mapUpdate, mapGet]
  | cons p rest ih =>
    by_cases hjk : j = k
    · subst hjk
      by_cases hpj : p.1 = j
      · simp [mapUpdate, mapGet, hpj]
      · simp only [mapUpdate, List.map_cons, if_neg hpj] at ih ⊢
        simp [mapGet, hpj] at ih ⊢
        simpa [mapUpdate] using ih
    · by_cases hpj : p.1 = j
      · have hpk : ¬ p.1 = k := by rw [hpj]; exact hjk
        simp [mapUpdate, mapGet, hpj, hpk, hjk]
      · by_cases hpk : p.1 = k
        · have hkj : ¬ (k = j) := fun h => hjk h.symm
          simp only [mapUpdate, List.map_cons, if_pos hpk] at ih ⊢
          simp [mapGet, hpk, hkj, hjk] at ih ⊢
          simpa [mapUpdate, hjk] using ih
        · simp only [mapUpdate, List.map_cons, if_neg hpk] at ih ⊢
          simp [mapGet, hpj, hjk] at ih ⊢
          simpa [mapUpdate, hjk] using ih

theorem mapKeys_mapUpdate {α : Type} (m : List (String × α)) (k : String) (f : α → α) :
    mapKeys (mapUpdate m k f) = mapKeys m := by
  induction m with
  | nil => rfl
  | cons p rest ih =>
    by_cases hpk : p.1 = k <;> simp [mapUpdate, mapKeys, hpk] at ih ⊢ <;> exact ih

theorem mapErase_sublist {α : Type} (m : List (String × α)) (k : String) :
    (mapErase m k).Sublist m := by
  induction m with
  | nil => simp [mapErase]
  | cons p rest ih =>
    by_cases hpk : p.1 = k
    · simpa [mapErase, hpk] using ih.cons p
    · simpa [mapErase, hpk] using ih.cons₂ p

theorem mem_mapErase {α : Type} {m : List (String × α)} {k : String} {p : String × α}
    (h : p ∈ mapErase m k) : p ∈ m ∧ p.1 ≠ k := by
  induction m with
  | nil => simp [mapErase] at h
  | cons q rest ih =>
    by_cases hqk : q.1 = k
    · rw [mapErase, if_pos hqk] at h
      exact ⟨List.mem_cons_of_mem _ (ih h).1, (ih h).2⟩
    · rw [mapErase, if_neg hqk] at h
      rcases List.mem_cons.mp h with h | h
      · subst h; exact ⟨List.mem_cons_self _ _, hqk⟩
      · exact ⟨List.mem_cons_of_mem _ (ih h).1, (ih h).2⟩

theorem mapGet_mapErase {α : Type} (m : List (String × α)) (k j : String) :
    mapGet (mapErase m k) j = if j = k then none else mapGet m j := by
  induction m with
  | nil => simp [mapErase, mapGet]
  | cons p rest ih =>
    by_cases hpk : p.1 = k
    · by_cases hjk : j = k
      · subst hjk
        simp [mapErase, hpk]
        simpa using ih
      · have hpj : ¬ p.1 = j := by rw [hpk]; exact fun h => hjk h.symm
        have hkj : ¬ k = j := fun h => hjk h.symm
        simp [mapErase, mapGet, hpk, hpj, hjk, hkj, ih]
    · by_cases hjk : j = k
      · subst hjk
        simp [mapErase, mapGet, hpk, ih]
      · by_cases hpj : p.1 = j
        · simp [mapErase, mapGet, hpk, hpj, hjk]
        · simp [mapErase, mapGet, hpk, hpj, hjk, ih]

theorem mapErase_of_not_mem {α : Type} {m : List (String × α)} {k : String}
    (h : k ∉ mapKeys m) : mapErase m k = m := by
  induction m with
  | nil => rfl
  | cons p rest ih =>
    simp [mapKeys] at h
    rw [mapErase, if_neg (fun hp => h.1 hp.symm)]
    rw [ih (by simpa [mapKeys] using h.2)]

theorem copyMap_go {α : Type} (m : List (String × α)) :
    ∀ acc : List (String × α), (∀ p ∈ m, p.1 ∉ mapKeys acc) → (mapKeys m).Nodup →
      m.foldl (fun a p => mapInsert a p.1 p.2) acc = acc ++ m := by
  induction m with
  | nil => intro acc _ _; simp
  | cons p rest ih =>
    intro acc hdisj hnd
    have hget : mapGet acc p.1 = none :=
      (mapGet_eq_none_iff acc p.1).mpr (hdisj p (List.mem_cons_self _ _))
    have hstep : mapInsert acc p.1 p.2 = acc ++ [(p.1, p.2)] :=
      mapInsert_of_get_none _ hget
    have hnd' : (mapKeys rest).Nodup := by
      simpa [mapKeys] using hnd.of_cons
    have hhead : p.1 ∉ mapKeys rest :=
      (List.nodup_cons.mp (by simpa [mapKeys] using hnd)).1
    have hdisj' : ∀ q ∈ rest, q.1 ∉ mapKeys (acc ++ [(p.1, p.2)]) := by
      intro q hq hmem
      have h1 : q.1 ∉ mapKeys acc := hdisj q (List.mem_cons_of_mem _ hq)
      have h2 : q.1 ≠ p.1 := by
        intro hcontr
        exact hhead (by rw [← hcontr]; exact List.mem_map_of_mem Prod.fst hq)
      rw [mapKeys, List.map_append] at hmem
      rcases List.mem_append.mp hmem with h | h
      · exact h1 (by simpa [mapKeys] using h)
      · simp at h
        exact h2 h
    calc (p :: rest).foldl (fun a q => mapInsert a q.1 q.2) acc
        = rest.foldl (fun a q => mapInsert a q.1 q.2) (acc ++ [(p.1, p.2)]) := by
          simp [hstep]
      _ = (acc ++ [(p.1, p.2)]) ++ rest := ih _ hdisj' hnd'
      _ = acc ++ p :: rest := by simp

theorem copyMap_eq_self {α : Type} (m : List (String × α))
    (hnd : (mapKeys m).Nodup) : copyMap m = m := by
  have := copyMap_go m [] (by simp [mapKeys]) hnd
  simpa [copyMap] using this

theorem mem_mapKeys_mapInsert {α : Type} {m : List (String × α)} {k j : String} {v : α}
    (h : j ∈ mapKeys (mapInsert m k v)) : j = k ∨ j ∈ mapKeys m := by
  induction m with
  | nil => simpa [mapInsert, mapKeys] using h
  | cons p rest ih =>
    by_cases hpk : p.1 = k
    · rw [mapInsert, if_pos hpk] at h
      simp [mapKeys] at h ⊢
      rcases h with h | h
      · exact Or.inl h
      · exact Or.inr (Or.inr h)
    · rw [mapInsert, if_neg hpk] at h
      simp [mapKeys] at h ⊢
      rcases h with h | h
      · exact Or.inr (Or.inl h)
      · rcases ih (by simpa [mapKeys] using h) with h | h
        · exact Or.inl h
        · exact Or.inr (Or.inr (by simpa [mapKeys] using h))

theorem nodup_mapKeys_mapInsert {α : Type} {m : List (String × α)} (k : String) (v : α)
    (hnd : (mapKeys m).Nodup) : (mapKeys (mapInsert m k v)).Nodup := by
  induction m with
  | nil => simp [mapInsert, mapKeys]
  | cons p rest ih =>
    rw [mapKeys, List.map_cons] at hnd
    have hcons := List.nodup_cons.mp hnd
    by_cases hpk : p.1 = k
    · rw [mapInsert, if_pos hpk]
      refine List.nodup_cons.mpr ⟨?_, hcons.2⟩
      rw [← hpk]; exact hcons.1
    · rw [mapInsert, if_neg hpk]
      refine List.nodup_cons.mpr ⟨?_, ih hcons.2⟩
      intro hmem
      rcases mem_mapKeys_mapInsert (by simpa [mapKeys] using hmem) with h | h
      · exact hpk h
      · exact hcons.1 h

theorem nodup_keys_Apply (s : FSMState) (now : Int) (log : Option Command)
    (ho : (mapKeys s.objects).Nodup) (hb : (mapKeys s.buckets).Nodup) :
    (mapKeys (Apply s now log).1.objects).Nodup ∧
    (mapKeys (Apply s now log).1.buckets).Nodup := by
  have hfil : ∀ (name : String),
      (mapKeys (s.objects.filter (fun p => !(p.2.bucketName == name)))).Nodup :=
    fun name => ho.sublist ((List.filter_sublist _).map Prod.fst)
  have herao : ∀ (k : String), (mapKeys (mapErase s.objects k)).Nodup :=
    fun k => ho.sublist ((mapErase_sublist _ _).map Prod.fst)
  have herab : ∀ (k : String), (mapKeys (mapErase s.buckets k)).Nodup :=
    fun k => hb.sublist ((mapErase_sublist _ _).map Prod.fst)
  match log with
  | none => exact ⟨ho, hb⟩
  | some cmd =>
    by_cases h1 : cmd.type = "create_bucket"
    · cases hd : cmd.data <;>
        simp [Apply, h1, applyCreateBucket, hd, ho, hb, nodup_mapKeys_mapInsert]
    · by_cases h2 : cmd.type = "delete_bucket"
      · cases hd : cmd.data <;>
          simp [Apply, h1, h2, applyDeleteBucket, hd, ho, hb, hfil, herab]
      · by_cases h3 : cmd.type = "create_object"
        · cases hd : cmd.data <;>
            simp [Apply, h1, h2, h3, applyCreateObject, hd, ho, hb,
              nodup_mapKeys_mapInsert, mapKeys_mapUpdate]
        · by_cases h4 : cmd.type = "update_object"
          · cases hd : cmd.data <;>
              simp [Apply, h1, h2, h3, h4, applyUpdateObject, hd, ho, hb, mapKeys_mapUpdate]
          · by_cases h5 : cmd.type = "delete_object"
            · cases hd : cmd.data with
              | objectRef bucketName objectKey =>
                rcases hget : mapGet s.objects (objKey bucketName objectKey) with _ | o <;>
                  simp [Apply, h1, h2, h3, h4, h5, applyDeleteObject, hd, hget, ho, hb,
                    herao, mapKeys_mapUpdate]
              | bucketData name owner acl =>
                simp [Apply, h1, h2, h3, h4, h5, applyDeleteObject, hd, ho, hb]
              | bucketRef name =>
                simp [Apply, h1, h2, h3, h4, h5, applyDeleteObject, hd, ho, hb]
              | objectData b k sz t c ct ek sh =>
                simp [Apply, h1, h2, h3, h4, h5, applyDeleteObject, hd, ho, hb]
              | objectPatch b k t la =>
                simp [Apply, h1, h2, h3, h4, h5, applyDeleteObject, hd, ho, hb]
            · by_cases h6 : cmd.type = "update_access_time"
              · cases hd : cmd.data <;>
                  simp [Apply, h1, h2, h3, h4, h5, h6, applyUpdateAccessTime, hd, ho, hb,
                    mapKeys_mapUpdate]
              · simp [Apply, h1, h2, h3, h4, h5, h6, ho, hb]

theorem nodup_keys_applyCmds (entries : List (Int × Command)) :
    (mapKeys (applyCmds emptyFSM entries).objects).Nodup ∧
    (mapKeys (applyCmds emptyFSM entries).buckets).Nodup := by
  suffices h : ∀ (s : FSMState), (mapKeys s.objects).Nodup → (mapKeys s.buckets).Nodup →
      (mapKeys (applyCmds s entries).objects).Nodup ∧
      (mapKeys (applyCmds s entries).buckets).Nodup by
    exact h emptyFSM (by simp [emptyFSM, mapKeys]) (by simp [emptyFSM, mapKeys])
  induction entries with
  | nil => intro s ho hb; exact ⟨ho, hb⟩
  | cons e rest ih =>
    intro s ho hb
    have hstep := nodup_keys_Apply s e.1 (some e.2) ho hb
    simpa [applyCmds] using ih _ hstep.1 hstep.2

/--
C4: for every reachable FSM state `S` (obtained by applying any command
sequence to a fresh FSM), taking a snapshot, serializing it with
`Persist`, and restoring it with `Restore` reproduces `S` exactly on
both the objects map and the buckets map.
-/
theorem restore_persist_snapshot_roundtrip (entries : List (Int × Command)) (f : FSMState) :
    Restore f (Persist (Snapshot (applyCmds emptyFSM entries))) = applyCmds emptyFSM entries := by
  obtain ⟨ho, hb⟩ := nodup_keys_applyCmds entries
  simp [Restore, Persist, Snapshot, copyMap_eq_self _ ho, copyMap_eq_self _ hb]

/--
C10: `FSM.Apply` on a log entry whose bytes do not unmarshal as a
`Command`, or whose command type is not one of the six recognized types,
returns an error and leaves both maps of the FSM state unchanged.
-/
theorem apply_bad_entry_unchanged (s : FSMState) (now : Int) (log : Option Command)
    (h : log = none ∨ ∃ c, log = some c ∧
        c.type ∉ ["create_bucket", "delete_bucket", "create_object", "update_object",
          "delete_object", "update_access_time"]) :
    (Apply s now log).1 = s ∧ (Apply s now log).2.isSome = true := by
  rcases h with h | ⟨c, hc, hmem⟩
  · subst h; simp [Apply]
  · subst hc
    simp only [List.mem_cons, List.mem_singleton, not_or] at hmem
    obtain ⟨n1, n2, n3, n4, n5, n6, -⟩ := hmem
    simp [Apply, n1, n2, n3, n4, n5, n6]

/-- Witness for C10 at a concrete unknown-type entry. -/
theorem apply_bad_entry_unchanged_witness :
    (Apply emptyFSM 0 (some { type := "bogus", data := .bucketRef "x" })).1 = emptyFSM ∧
    (Apply emptyFSM 0 (some { type := "bogus", data := .bucketRef "x" })).2.isSome = true :=
  apply_bad_entry_unchanged emptyFSM 0 _ (Or.inr ⟨_, rfl, by decide⟩)

/--
C6 (code bug): the FSM is NOT deterministic given only the log entry.
`applyCreateObject` stamps `CreatedAt`/`LastAccessed` with the local
wall clock `time.Now()` (the `now` argument), which is not part of the
log entry, so applying the same single log entry to two fresh FSMs at
wall-clock times 0 and 1 yields different states (the spec requires the
clock to come from the log entry's apply-time clock, making replay
reproducible).
-/
theorem apply_depends_on_wall_clock :
    (Apply emptyFSM 0
        (some { type := "create_object",
                data := .objectData "b" "k" 5 "hot" "c0" "text" none none })).1 ≠
    (Apply emptyFSM 1
        (some { type := "create_object",
                data := .objectData "b" "k" 5 "hot" "c0" "text" none none })).1 := by
  decide

/--
C5 counterexample: `applyCreateObject` does not require the bucket to
exist, so after a single `create_object` command on a fresh FSM a stored
object references the bucket `"b"` while the bucket map is empty.
-/
theorem orphan_object_counterexample :
    (mapGet (Apply emptyFSM 0
        (some { type := "create_object",
                data := .objectData "b" "k" 5 "hot" "c0" "text" none none })).1.objects
        "b/k").isSome = true ∧
    (Apply emptyFSM 0
        (some { type := "create_object",
                data := .objectData "b" "k" 5 "hot" "c0" "text" none none })).1.buckets = [] := by
  decide

/--
C5 amended: the cascade-delete half holds unconditionally — immediately
after applying a `delete_bucket` command for bucket `name`, no object
with `bucketName = name` remains in the objects map (but orphan objects
can exist after `create_object`, so the "after every command" half of
the claim fails; see the counterexample).
-/
theorem cascade_delete_no_object_left (s : FSMState) (now : Int) (name : String) :
    ∀ p ∈ (Apply s now (some { type := "delete_bucket", data := .bucketRef name })).1.objects,
      p.2.bucketName ≠ name := by
  intro p hp
  simp [Apply, applyDeleteBucket] at hp
  exact hp.2

/-- Witness for C5 (amended) at a concrete state holding an object in another bucket. -/
theorem cascade_delete_no_object_left_witness :
    (("c/k",
      { bucketName := "c", objectKey := "k", size := 1, tier := "hot", createdAt := 0,
        lastAccessed := 0, shards := [], encryptionKey := "", checksum := "",
        contentType := "", metadata := [] : ObjectMetadata }) :
        String × ObjectMetadata).2.bucketName ≠ "b" :=
  cascade_delete_no_object_left
    { objects := [("c/k",
        { bucketName := "c", objectKey := "k", size := 1, tier := "hot", createdAt := 0,
          lastAccessed := 0, shards := [], encryptionKey := "", checksum := "",
          contentType := "", metadata := [] })],
      buckets := [] } 0 "b" _ (by decide)

/--
C3 counterexample: a `create_bucket` command whose name is already
present is NOT rejected: on a state holding bucket `"b"` with
`objectCount = 1` and `totalSize = 5`, the command succeeds (no error)
and replaces the bucket with a fresh one whose counters are zero.
-/
theorem create_bucket_overwrites_counterexample :
    (applyCreateBucket
        { objects := [],
          buckets := [("b",
            { name := "b", createdAt := 0, owner := "alice", acl := [], objectCount := 1,
              totalSize := 5, metadata := [] })] }
        7 (.bucketData "b" "bob" none)).2 = none ∧
    mapGet (applyCreateBucket
        { objects := [],
          buckets := [("b",
            { name := "b", createdAt := 0, owner := "alice", acl := [], objectCount := 1,
              totalSize := 5, metadata := [] })] }
        7 (.bucketData "b" "bob" none)).1.buckets "b" =
      some { name := "b", createdAt := 7, owner := "bob", acl := [], objectCount := 0,
             totalSize := 0, metadata := [] } := by
  decide

/--
C3 amended: `create_bucket` on an existing name succeeds and replaces
the existing bucket with a freshly initialized one (counters reset to
zero), and on the leader `handleCreateBucket` answers 201 whenever the
Raft apply future reports no error — it performs no duplicate check and
never returns 409.
-/
theorem create_bucket_replaces_existing (s : FSMState) (now : Int)
    (name owner : String) (acl : Option (List (String × String)))
    (old : BucketMetadata) (req : CreateBucketReq) (leader path : String)
    (_hold : mapGet s.buckets name = some old) (hname : req.name ≠ "") :
    (applyCreateBucket s now (.bucketData name owner acl)).2 = none ∧
    mapGet (applyCreateBucket s now (.bucketData name owner acl)).1.buckets name =
      some { name := name, createdAt := now, owner := owner, acl := acl.getD [],
             objectCount := 0, totalSize := 0, metadata := [] } ∧
    (handleCreateBucket RaftState.leader leader path (some req) none).1.status = 201 := by
  refine ⟨rfl, ?_, ?_⟩
  · simp [applyCreateBucket, mapGet_mapInsert]
  · simp [handleCreateBucket, hname]

/-- Witness for C3 (amended) at a concrete state and request. -/
theorem create_bucket_replaces_existing_witness :
    (applyCreateBucket
        { objects := [],
          buckets := [("b",
            { name := "b", createdAt := 0, owner := "alice", acl := [], objectCount := 1,
              totalSize := 5, metadata := [] })] }
        7 (.bucketData "b" "bob" none)).2 = none ∧
    mapGet (applyCreateBucket
        { objects := [],
          buckets := [("b",
            { name := "b", createdAt := 0, owner := "alice", acl := [], objectCount := 1,
              totalSize := 5, metadata := [] })] }
        7 (.bucketData "b" "bob" none)).1.buckets "b" =
      some { name := "b", createdAt := 7, owner := "bob", acl := [], objectCount := 0,
             totalSize := 0, metadata := [] } ∧
    (handleCreateBucket RaftState.leader "n1:8080" "/buckets"
        (some { name := "b", owner := "bob", acl := [] }) none).1.status = 201 :=
  create_bucket_replaces_existing _ 7 "b" "bob" none
    { name := "b", createdAt := 0, owner := "alice", acl := [], objectCount := 1,
      totalSize := 5, metadata := [] }
    { name := "b", owner := "bob", acl := [] } "n1:8080" "/buckets" (by decide) (by decide)

/--
C8: when a `POST /buckets` write with a well-formed body reaches a node
whose consensus state is not Leader, the handler submits no command and
answers 307 with `Location` set to the leader's HTTP address, or 503
when no leader is known.
-/
theorem non_leader_write_redirects (rs : RaftState) (leader path : String)
    (req : CreateBucketReq) (applyErr : Option String)
    (hrs : rs ≠ RaftState.leader) (hname : req.name ≠ "") :
    (handleCreateBucket rs leader path (some req) applyErr).2 = [] ∧
    (leader = "" →
      (handleCreateBucket rs leader path (some req) applyErr).1 =
        { status := 503, location := none }) ∧
    (leader ≠ "" →
      (handleCreateBucket rs leader path (some req) applyErr).1 =
        { status := 307, location := some ("http://" ++ leader ++ path) }) := by
  refine ⟨?_, ?_, ?_⟩ <;> try intro hl
  · simp [handleCreateBucket, hname, hrs]
  · simp [handleCreateBucket, hname, hrs, redirectToLeader, hl]
  · simp [handleCreateBucket, hname, hrs, redirectToLeader, hl]

/-- Witness for C8 at a concrete follower request, in both leader situations. -/
theorem non_leader_write_redirects_witness :
    ((handleCreateBucket RaftState.follower "n2:8080" "/buckets"
        (some { name := "b", owner := "o", acl := [] }) none).2 = [] ∧
      (handleCreateBucket RaftState.follower "n2:8080" "/buckets"
        (some { name := "b", owner := "o", acl := [] }) none).1 =
        { status := 307, location := some "http://n2:8080/buckets" }) ∧
    (handleCreateBucket RaftState.follower "" "/buckets"
        (some { name := "b", owner := "o", acl := [] }) none).1 =
      { status := 503, location := none } := by
  refine ⟨⟨?_, ?_⟩, ?_⟩
  · exact (non_leader_write_redirects RaftState.follower "n2:8080" "/buckets"
      { name := "b", owner := "o", acl := [] } none (by decide) (by decide)).1
  · exact ((non_leader_write_redirects RaftState.follower "n2:8080" "/buckets"
      { name := "b", owner := "o", acl := [] } none (by decide) (by decide)).2.2 (by decide))
  · exact ((non_leader_write_redirects RaftState.follower "" "/buckets"
      { name := "b", owner := "o", acl := [] } none (by decide) (by decide)).2.1 rfl)

/--
C9: a `TieringRequest` whose `current_tier` equals `recommended_tier`,
or whose confidence is below the 0.8 threshold, is counted as skipped
and leads to no migration submission; only requests passing both checks
lead to a submission.
-/
theorem migration_skip_logic (req : TieringRequest) (outcome : SubmitOutcome)
    (m : MigMetrics) :
    ((req.currentTier = req.recommendedTier ∨ req.confidence < (4 : ℚ) / 5) →
      (processMigrationRequest req outcome m).1.skipped = m.skipped + 1 ∧
      (processMigrationRequest req outcome m).1.jobsCreated = m.jobsCreated ∧
      (processMigrationRequest req outcome m).1.jobsCreationFailed = m.jobsCreationFailed ∧
      (processMigrationRequest req outcome m).2 = false) ∧
    ((processMigrationRequest req outcome m).2 = true →
      req.currentTier ≠ req.recommendedTier ∧ ¬ req.confidence < (4 : ℚ) / 5) := by
  unfold processMigrationRequest
  by_cases h1 : req.currentTier = req.recommendedTier
  · simp [h1]
  · by_cases h2 : req.confidence < (4 : ℚ) / 5
    · simp [h1, h2]
    · cases outcome <;> simp [h1, h2]

/-- Witness for C9: a low-confidence request is skipped; a passing
request leads to a submission with both checks satisfied. -/
theorem migration_skip_logic_witness :
    ((processMigrationRequest
        { bucketName := "b", objectKey := "k", currentTier := "hot",
          recommendedTier := "cold", confidence := 1/2 }
        SubmitOutcome.submitted
        { processed := 0, skipped := 0, jobsCreated := 0, jobsCreationFailed := 0 }).1.skipped
      = 1 ∧
     (processMigrationRequest
        { bucketName := "b", objectKey := "k", currentTier := "hot",
          recommendedTier := "cold", confidence := 1/2 }
        SubmitOutcome.submitted
        { processed := 0, skipped := 0, jobsCreated := 0, jobsCreationFailed := 0 }).2
      = false) ∧
    ("hot" : String) ≠ "cold" ∧ ¬ ((9 : ℚ)/10 < (4 : ℚ) / 5) := by
  constructor
  · have h := (migration_skip_logic
      { bucketName := "b", objectKey := "k", currentTier := "hot",
        recommendedTier := "cold", confidence := 1/2 }
      SubmitOutcome.submitted
      { processed := 0, skipped := 0, jobsCreated := 0, jobsCreationFailed := 0 }).1
      (Or.inr (by norm_num))
    exact ⟨h.1, h.2.2.2⟩
  · exact (migration_skip_logic
      { bucketName := "b", objectKey := "k", currentTier := "hot",
        recommendedTier := "cold", confidence := 9/10 }
      SubmitOutcome.submitted
      { processed := 0, skipped := 0, jobsCreated := 0, jobsCreationFailed := 0 }).2
      (by norm_num [processMigrationRequest]; decide)

/--
C7: with a 32-byte key, `encryptData` produces `nonce ++ gcm_seal(x)`
with the fresh 12-byte nonce prepended; `decryptData` inverts it
whenever the AEAD opens its own sealed output (the AEAD round-trip
contract), and on any input that is not an authentic encryption under
the key, `decryptData` fails with an error rather than returning bytes
(given the AEAD ciphertext-integrity contract: only sealed ciphertexts
open).
-/
theorem encrypt_decrypt_roundtrip_and_tamper (g : AEAD) (key nonce x d' : List Nat)
    (hkey : key.length = 32) (hnlen : nonce.length = 12) :
    encryptData g x key nonce = .ok (nonce ++ g.sealAE key nonce x) ∧
    (g.openAE key nonce (g.sealAE key nonce x) = some x →
      decryptData g (nonce ++ g.sealAE key nonce x) key = .ok x) ∧
    ((∀ n c p, n.length = 12 → g.openAE key n c = some p → c = g.sealAE key n p) →
      (∀ n p, n.length = 12 → d' ≠ n ++ g.sealAE key n p) →
      ∃ e, decryptData g d' key = .error e) := by
  refine ⟨?_, ?_, ?_⟩
  · simp [encryptData, hkey]
  · intro hopen
    have hlen : ¬ (nonce ++ g.sealAE key nonce x).length < 12 := by
      rw [List.length_append, hnlen]; omega
    have htake : (nonce ++ g.sealAE key nonce x).take 12 = nonce := by
      rw [← hnlen]; exact List.take_left _ _
    have hdrop : (nonce ++ g.sealAE key nonce x).drop 12 = g.sealAE key nonce x := by
      rw [← hnlen]; exact List.drop_left _ _
    simp [decryptData, hkey, hlen, htake, hdrop, hopen]
    omega
  · intro hauth htam
    by_cases hshort : d'.length < 12
    · exact ⟨.ciphertextTooShort, by simp [decryptData, hkey, hshort]⟩
    · rcases hopen : g.openAE key (d'.take 12) (d'.drop 12) with _ | p
      · exact ⟨.authFailed, by simp [decryptData, hkey, hshort, hopen]⟩
      · exfalso
        have hlen12 : (d'.take 12).length = 12 := by
          rw [List.length_take]; omega
        have hc := hauth _ _ _ hlen12 hopen
        have hsplit : d' = d'.take 12 ++ g.sealAE key (d'.take 12) p := by
          conv_lhs => rw [← List.take_append_drop 12 d']
          rw [hc]
        exact htam _ _ hlen12 hsplit

/-- Witness for C7 at a concrete idealized AEAD, key, nonce and inputs. -/
theorem encrypt_decrypt_roundtrip_and_tamper_witness :
    (decryptData { sealAE := fun _ _ pt => pt, openAE := fun _ _ c => some c }
        (List.replicate 12 0 ++ [1, 2]) (List.replicate 32 0) = .ok [1, 2]) ∧
    (∃ e, decryptData { sealAE := fun _ _ pt => pt, openAE := fun _ _ c => some c }
        [] (List.replicate 32 0) = .error e) := by
  constructor
  · exact (encrypt_decrypt_roundtrip_and_tamper
      { sealAE := fun _ _ pt => pt, openAE := fun _ _ c => some c }
      (List.replicate 32 0) (List.replicate 12 0) [1, 2] []
      (by decide) (by decide)).2.1 rfl
  · exact (encrypt_decrypt_roundtrip_and_tamper
      { sealAE := fun _ _ pt => pt, openAE := fun _ _ c => some c }
      (List.replicate 32 0) (List.replicate 12 0) [1, 2] []
      (by decide) (by decide)).2.2
      (fun n c p _ h => by cases h; rfl)
      (fun n p hn h => by
        have h2 := congrArg List.length h
        simp only [List.length_nil, List.length_append, hn] at h2
        omega)

/- Helper lemmas for the erasure codec. -/

theorem foldl_append_eq_flatten (l : List (List Nat)) :
    l.foldl (fun acc sh => acc ++ sh) [] = l.flatten := by
  suffices h : ∀ acc : List Nat, l.foldl (fun a sh => a ++ sh) acc = acc ++ l.flatten by
    simpa using h []
  induction l with
  | nil => intro acc; simp
  | cons sh rest ih => intro acc; simp [List.foldl_cons, ih]

theorem length_dataShardsOf (s : Nat) :
    ∀ (k : Nat) (data : List Nat), (dataShardsOf s k data).length = k := by
  intro k
  induction k with
  | zero => intro data; rfl
  | succ k ih => intro data; simp [dataShardsOf, ih]

theorem join_dataShardsOf (s : Nat) :
    ∀ (k : Nat) (data : List Nat), data.length ≤ k * s →
      (dataShardsOf s k data).flatten = data ++ List.replicate (k * s - data.length) 0 := by
  intro k
  induction k with
  | zero =>
    intro data h
    have hnil : data = [] := List.eq_nil_of_length_eq_zero (Nat.le_zero.mp (by simpa using h))
    subst hnil
    simp [dataShardsOf]
  | succ k ih =>
    intro data h
    have hmul : (k + 1) * s = k * s + s := by ring
    obtain ⟨t, ht⟩ : ∃ t, k * s = t := ⟨_, rfl⟩
    have hih := ih (data.drop s) (by rw [List.length_drop, ht]; rw [hmul, ht] at h; omega)
    rw [dataShardsOf, List.flatten_cons, hih, padTo]
    by_cases hle : data.length ≤ s
    · have htake : data.take s = data := List.take_of_length_le hle
      have hdrop : data.drop s = [] := List.drop_eq_nil_of_le hle
      have harith : s - data.length + k * s = (k + 1) * s - data.length := by
        rw [hmul, ht]; omega
      rw [htake, hdrop]
      simp only [List.nil_append, List.length_nil, Nat.sub_zero]
      rw [List.append_assoc, ← List.replicate_add, harith]
    · have hlt : s < data.length := Nat.lt_of_not_le hle
      have htl : (data.take s).length = s := by
        rw [List.length_take]; omega
      rw [htl, Nat.sub_self, List.replicate_zero, List.append_nil, List.length_drop]
      have hjoin : data.take s ++ data.drop s = data := List.take_append_drop s data
      have harith : k * s - (data.length - s) = (k + 1) * s - data.length := by
        rw [hmul, ht]; omega
      rw [← List.append_assoc, hjoin, harith]

theorem le_mul_ceil_div (n k : Nat) (hk : 0 < k) : n ≤ k * ((n + k - 1) / k) := by
  have h1 := Nat.div_add_mod (n + k - 1) k
  have h2 : (n + k - 1) % k < k := Nat.mod_lt _ hk
  obtain ⟨t, ht⟩ : ∃ t, k * ((n + k - 1) / k) = t := ⟨_, rfl⟩
  rw [ht] at h1 ⊢
  omega

theorem mem_enumFrom_fst {α : Type} :
    ∀ (l : List α) (n : Nat) (p : Nat × α), p ∈ List.enumFrom n l → n ≤ p.1 := by
  intro l
  induction l with
  | nil => intro n p h; simp [List.enumFrom] at h
  | cons a rest ih =>
    intro n p h
    rw [List.enumFrom] at h
    rcases List.mem_cons.mp h with h | h
    · subst h; exact Nat.le_refl n
    · exact Nat.le_of_succ_le (ih (n + 1) p h)

theorem count_none_mask_go :
    ∀ (shards : List (List Nat)) (n : Nat) (L : List Nat), L.Nodup →
      (∀ i ∈ L, n ≤ i ∧ i < n + shards.length) →
      (((List.enumFrom n shards).map
          (fun p => if p.1 ∈ L then none else some p.2)).filter
            (fun o => o.isNone)).length = L.length := by
  intro shards
  induction shards with
  | nil =>
    intro n L hnd hb
    have hL : L = [] := by
      cases L with
      | nil => rfl
      | cons a t =>
        have := hb a (List.mem_cons_self a t)
        simp at this
        omega
    subst hL
    simp [List.enumFrom]
  | cons sh rest ih =>
    intro n L hnd hb
    rw [List.enumFrom, List.map_cons]
    by_cases hn : n ∈ L
    · have hcongr : (List.enumFrom (n + 1) rest).map
          (fun p => if p.1 ∈ L then none else some p.2) =
          (List.enumFrom (n + 1) rest).map
          (fun p => if p.1 ∈ L.erase n then none else some p.2) := by
        apply List.map_congr_left
        intro p hp
        have hpn : n + 1 ≤ p.1 := mem_enumFrom_fst _ _ _ hp
        have hiff : p.1 ∈ L.erase n ↔ p.1 ∈ L :=
          List.mem_erase_of_ne (by omega)
        by_cases hmem : p.1 ∈ L
        · rw [if_pos hmem, if_pos (hiff.mpr hmem)]
        · rw [if_neg hmem, if_neg (fun hc => hmem (hiff.mp hc))]
      rw [if_pos hn, hcongr]
      have hihe := ih (n + 1) (L.erase n) (hnd.erase n)
        (by
          intro i hi
          obtain ⟨hne, hiL⟩ := (List.Nodup.mem_erase_iff hnd).mp hi
          have := hb i hiL
          simp at this ⊢
          omega)
      rw [List.filter_cons]
      simp only [Option.isNone_none, if_pos]
      rw [List.length_cons, hihe, List.length_erase_of_mem hn]
      have : 0 < L.length := List.length_pos.mpr (List.ne_nil_of_mem hn)
      omega
    · rw [if_neg hn, List.filter_cons]
      simp only [Option.isNone_some, Bool.false_eq_true, if_neg]
      exact ih (n + 1) L hnd
        (by
          intro i hi
          have := hb i hi
          have hne : i ≠ n := fun hc => hn (hc ▸ hi)
          simp at this ⊢
          omega)

theorem count_none_mask (L : List Nat) (shards : List (List Nat))
    (hnd : L.Nodup) (hb : ∀ i ∈ L, i < shards.length) :
    ((maskShards L shards).filter (fun o => o.isNone)).length = L.length := by
  have h := count_none_mask_go shards 0 L hnd
    (fun i hi => ⟨Nat.zero_le _, by simpa using hb i hi⟩)
  simpa [maskShards, List.enum] using h

theorem length_filter_some_add_none {α : Type} (l : List (Option α)) :
    (l.filter (fun o => o.isSome)).length + (l.filter (fun o => o.isNone)).length
      = l.length := by
  induction l with
  | nil => simp
  | cons o rest ih => cases o <;> simp [List.filter_cons] <;> omega

theorem length_maskShards (L : List Nat) (shards : List (List Nat)) :
    (maskShards L shards).length = shards.length := by
  simp [maskShards]

/--
C1: for every non-empty byte string encoded by `EncodeData` into
`dataShards + parityShards` shards, and every duplicate-free set `L` of
shard indices with `|L| ≤ parityShards`, `DecodeShards` on the shard
list with the shards at indices in `L` nulled and
`originalSize = |data|` returns exactly `data` (assuming the
Reed-Solomon library contract: `addParity` yields `parityShards` parity
shards, `Reconstruct` restores the codeword when at least `dataShards`
shards are present, and `Verify` accepts the codeword); and with
`|L| = parityShards + 1` nulled shards, `DecodeShards` fails with the
insufficient-shards error.
-/
theorem erasure_roundtrip_and_loss_tolerance (e : Encoder) (data : List Nat)
    (L : List Nat) (full : List (List Nat))
    (hk : 0 < e.dataShards)
    (hdata : data ≠ [])
    (henc : EncodeData e data = .ok full)
    (hplen : (e.rs.addParity (dataShardsOf ((data.length + e.dataShards - 1) / e.dataShards)
        e.dataShards data)).length = e.parityShards)
    (hndL : L.Nodup)
    (hbL : ∀ i ∈ L, i < e.dataShards + e.parityShards) :
    (L.length ≤ e.parityShards →
      e.rs.reconstruct (maskShards L full) = some full →
      e.rs.verify full = true →
      DecodeShards e (maskShards L full) data.length = .ok data) ∧
    (L.length = e.parityShards + 1 →
      DecodeShards e (maskShards L full) data.length = .error .insufficientShards) := by
  have hne : ¬ data.length = 0 := by
    simpa using hdata
  simp only [EncodeData, hne, if_false, ite_false, Except.ok.injEq] at henc
  have hdlen : (dataShardsOf ((data.length + e.dataShards - 1) / e.dataShards)
      e.dataShards data).length = e.dataShards := length_dataShardsOf _ _ _
  have hflen : full.length = e.dataShards + e.parityShards := by
    rw [← henc, List.length_append, hdlen, hplen]
  have hmlen : (maskShards L full).length = e.dataShards + e.parityShards := by
    rw [length_maskShards, hflen]
  have hnotne : ¬ ((maskShards L full).length ≠ e.dataShards + e.parityShards) := by
    simp [hmlen]
  have hcnt := count_none_mask L full hndL (by intro i hi; rw [hflen]; exact hbL i hi)
  have hpart := length_filter_some_add_none (maskShards L full)
  rw [hmlen] at hpart
  constructor
  · intro hLm hrec hver
    have hsome : ¬ ((maskShards L full).filter (fun sh => sh.isSome)).length
        < e.dataShards := by omega
    unfold DecodeShards
    rw [if_neg hnotne, if_neg hsome, hrec]
    have htake : full.take e.dataShards =
        dataShardsOf ((data.length + e.dataShards - 1) / e.dataShards) e.dataShards data := by
      rw [← henc]
      have hti := List.take_left
        (dataShardsOf ((data.length + e.dataShards - 1) / e.dataShards) e.dataShards data)
        (e.rs.addParity
          (dataShardsOf ((data.length + e.dataShards - 1) / e.dataShards) e.dataShards data))
      rwa [hdlen] at hti
    have hbound : data.length ≤
        e.dataShards * ((data.length + e.dataShards - 1) / e.dataShards) :=
      le_mul_ceil_div data.length e.dataShards hk
    simp only [hver, if_true, ite_true]
    rw [htake, foldl_append_eq_flatten, join_dataShardsOf _ _ _ hbound]
    rw [List.take_left]
  · intro hLm1
    have hsome2 : ((maskShards L full).filter (fun sh => sh.isSome)).length
        < e.dataShards := by omega
    unfold DecodeShards
    rw [if_neg hnotne, if_pos hsome2]

/-- Witness for C1 with k = 2, m = 1, data `[1, 2, 3]`: decoding with the
parity shard nulled returns the data; with two shards nulled it fails
with the insufficient-shards error. -/
theorem erasure_roundtrip_and_loss_tolerance_witness :
    DecodeShards
      { dataShards := 2, parityShards := 1, shardSize := 4,
        rs := { addParity := fun _ => [[0, 0]],
                reconstruct := fun _ => some [[1, 2], [3, 0], [0, 0]],
                verify := fun _ => true } }
      (maskShards [2] [[1, 2], [3, 0], [0, 0]]) 3 = .ok [1, 2, 3] ∧
    DecodeShards
      { dataShards := 2, parityShards := 1, shardSize := 4,
        rs := { addParity := fun _ => [[0, 0]],
                reconstruct := fun _ => some [[1, 2], [3, 0], [0, 0]],
                verify := fun _ => true } }
      (maskShards [0, 2] [[1, 2], [3, 0], [0, 0]]) 3 = .error .insufficientShards := by
  constructor
  · exact (erasure_roundtrip_and_loss_tolerance
      { dataShards := 2, parityShards := 1, shardSize := 4,
        rs := { addParity := fun _ => [[0, 0]],
                reconstruct := fun _ => some [[1, 2], [3, 0], [0, 0]],
                verify := fun _ => true } }
      [1, 2, 3] [2] [[1, 2], [3, 0], [0, 0]]
      (by decide) (by decide) rfl rfl (by decide) (by decide)).1 (by decide) rfl rfl
  · exact (erasure_roundtrip_and_loss_tolerance
      { dataShards := 2, parityShards := 1, shardSize := 4,
        rs := { addParity := fun _ => [[0, 0]],
                reconstruct := fun _ => some [[1, 2], [3, 0], [0, 0]],
                verify := fun _ => true } }
      [1, 2, 3] [0, 2] [[1, 2], [3, 0], [0, 0]]
      (by decide) (by decide) rfl rfl (by decide) (by decide)).2 rfl

/- Helper lemmas for the bucket-counter invariant. -/

theorem objCountIn_append_single (m : List (String × ObjectMetadata)) (k : String)
    (o : ObjectMetadata) (B : String) :
    objCountIn (m ++ [(k, o)]) B = objCountIn m B + (if o.bucketName = B then 1 else 0) := by
  by_cases h : o.bucketName = B <;> simp [objCountIn, List.filter_append, h]

theorem sizeSumIn_append_single (m : List (String × ObjectMetadata)) (k : String)
    (o : ObjectMetadata) (B : String) :
    sizeSumIn (m ++ [(k, o)]) B = sizeSumIn m B + (if o.bucketName = B then o.size else 0) := by
  by_cases h : o.bucketName = B <;> simp [sizeSumIn, List.filter_append, h]

theorem objCountIn_cons (p : String × ObjectMetadata) (rest : List (String × ObjectMetadata))
    (B : String) :
    objCountIn (p :: rest) B = objCountIn rest B + (if p.2.bucketName = B then 1 else 0) := by
  by_cases hB : p.2.bucketName = B <;> simp [objCountIn, List.filter_cons, hB]

theorem sizeSumIn_cons (p : String × ObjectMetadata) (rest : List (String × ObjectMetadata))
    (B : String) :
    sizeSumIn (p :: rest) B = sizeSumIn rest B + (if p.2.bucketName = B then p.2.size else 0) := by
  by_cases hB : p.2.bucketName = B
  · simp [sizeSumIn, List.filter_cons, hB]
    omega
  · simp [sizeSumIn, List.filter_cons, hB]

theorem counts_filter_ne (name B : String) (h : B ≠ name)
    (m : List (String × ObjectMetadata)) :
    objCountIn (m.filter (fun p => !(p.2.bucketName == name))) B = objCountIn m B ∧
    sizeSumIn (m.filter (fun p => !(p.2.bucketName == name))) B = sizeSumIn m B := by
  have hfil : (m.filter (fun p => !(p.2.bucketName == name))).filter
      (fun p => p.2.bucketName == B) = m.filter (fun p => p.2.bucketName == B) := by
    rw [List.filter_filter]
    apply List.filter_congr
    intro a _
    by_cases hB : a.2.bucketName = B
    · have hn : ¬ a.2.bucketName = name := by rw [hB]; exact h
      simp [hB, hn]
      exact h
    · simp [hB]
  exact ⟨by simp [objCountIn, hfil], by simp [sizeSumIn, hfil]⟩

theorem counts_mapErase (key : String) (o : ObjectMetadata) (B : String) :
    ∀ m : List (String × ObjectMetadata), (mapKeys m).Nodup → mapGet m key = some o →
      objCountIn m B = objCountIn (mapErase m key) B + (if o.bucketName = B then 1 else 0) ∧
      sizeSumIn m B = sizeSumIn (mapErase m key) B + (if o.bucketName = B then o.size else 0) := by
  intro m
  induction m with
  | nil => intro _ hget; simp [mapGet] at hget
  | cons p rest ih =>
    intro hnd hget
    rw [mapKeys, List.map_cons] at hnd
    have hcons := List.nodup_cons.mp hnd
    by_cases hpk : p.1 = key
    · have ho : o = p.2 := by
        simp [mapGet, hpk] at hget
        exact hget.symm
      have hkeyout : key ∉ mapKeys rest := by rw [← hpk]; exact hcons.1
      rw [mapErase, if_pos hpk, mapErase_of_not_mem hkeyout]
      subst ho
      exact ⟨objCountIn_cons p rest B, sizeSumIn_cons p rest B⟩
    · rw [mapErase, if_neg hpk]
      have hget' : mapGet rest key = some o := by simpa [mapGet, hpk] using hget
      have ih' := ih hcons.2 hget'
      constructor
      · rw [objCountIn_cons, objCountIn_cons, ih'.1]
        omega
      · rw [sizeSumIn_cons, sizeSumIn_cons, ih'.2]
        omega

theorem counts_mapUpdate (k : String) (f : ObjectMetadata → ObjectMetadata) (B : String)
    (hf : ∀ x, (f x).bucketName = x.bucketName ∧ (f x).size = x.size) :
    ∀ m : List (String × ObjectMetadata),
      objCountIn (mapUpdate m k f) B = objCountIn m B ∧
      sizeSumIn (mapUpdate m k f) B = sizeSumIn m B := by
  intro m
  induction m with
  | nil => simp [mapUpdate, objCountIn, sizeSumIn]
  | cons p rest ih =>
    by_cases hpk : p.1 = k
    · by_cases hB : p.2.bucketName = B <;>
        simp [mapUpdate, objCountIn, sizeSumIn, List.filter_cons, hpk, hB,
          (hf p.2).1, (hf p.2).2] at ih ⊢ <;>
        exact ⟨ih.1, ih.2⟩
    · by_cases hB : p.2.bucketName = B <;>
        simp [mapUpdate, objCountIn, sizeSumIn, List.filter_cons, hpk, hB] at ih ⊢ <;>
        exact ⟨ih.1, ih.2⟩

theorem counts_zero_of_no_bucket (m : List (String × ObjectMetadata)) (B : String)
    (h : ∀ p ∈ m, p.2.bucketName ≠ B) :
    objCountIn m B = 0 ∧ sizeSumIn m B = 0 := by
  have hfil : m.filter (fun p => p.2.bucketName == B) = [] :=
    List.filter_eq_nil_iff.mpr (by simpa using h)
  simp [objCountIn, sizeSumIn, hfil]

theorem append_slash_inj :
    ∀ (a₁ a₂ s₁ s₂ : List Char), '/' ∉ a₁ → '/' ∉ a₂ →
      a₁ ++ '/' :: s₁ = a₂ ++ '/' :: s₂ → a₁ = a₂ ∧ s₁ = s₂ := by
  intro a₁
  induction a₁ with
  | nil =>
    intro a₂ s₁ s₂ _ h2 heq
    cases a₂ with
    | nil => simpa using heq
    | cons c t =>
      simp at heq
      exact absurd (heq.1 ▸ List.mem_cons_self c t) h2
  | cons c t ih =>
    intro a₂ s₁ s₂ h1 h2 heq
    cases a₂ with
    | nil =>
      simp at heq
      exact absurd (heq.1 ▸ List.mem_cons_self c t) h1
    | cons c2 t2 =>
      simp at heq
      obtain ⟨hc, ht⟩ := heq
      have h1' : '/' ∉ t := fun hm => h1 (List.mem_cons_of_mem _ hm)
      have h2' : '/' ∉ t2 := fun hm => h2 (List.mem_cons_of_mem _ hm)
      obtain ⟨hta, hsa⟩ := ih t2 s₁ s₂ h1' h2' ht
      exact ⟨by rw [hc, hta], hsa⟩

theorem objKey_inj (b₁ k₁ b₂ k₂ : String) (h₁ : slashFree b₁) (h₂ : slashFree b₂)
    (heq : objKey b₁ k₁ = objKey b₂ k₂) : b₁ = b₂ ∧ k₁ = k₂ := by
  have hdata : b₁.data ++ '/' :: k₁.data = b₂.data ++ '/' :: k₂.data := by
    have h := congrArg String.data heq
    simpa [objKey, String.data_append] using h
  obtain ⟨hb, hk⟩ := append_slash_inj b₁.data b₂.data k₁.data k₂.data h₁ h₂ hdata
  constructor
  · cases b₁; cases b₂; exact congrArg String.mk (by simpa using hb)
  · cases k₁; cases k₂; exact congrArg String.mk (by simpa using hk)

theorem Inv_applyCreateBucket (s : FSMState) (now : Int) (name owner : String)
    (acl : Option (List (String × String)))
    (hinv : Inv s) (hfresh : mapGet s.buckets name = none) (hsf : slashFree name) :
    Inv (applyCreateBucket s now (.bucketData name owner acl)).1 := by
  obtain ⟨hbk, hob, hnd, hcnt⟩ := hinv
  have hnob : ∀ q ∈ s.objects, q.2.bucketName ≠ name := by
    intro q hq hcontr
    have hsome := (hob q hq).2.2
    rw [hcontr, hfresh] at hsome
    simp at hsome
  simp only [applyCreateBucket]
  have hins : mapInsert s.buckets name
      ({ name := name, createdAt := now, owner := owner, acl := acl.getD [],
         objectCount := 0, totalSize := 0, metadata := [] } : BucketMetadata) =
      s.buckets ++ [(name,
        { name := name, createdAt := now, owner := owner, acl := acl.getD [],
          objectCount := 0, totalSize := 0, metadata := [] })] :=
    mapInsert_of_get_none _ hfresh
  refine ⟨?_, ?_, ?_, ?_⟩
  · intro p hp
    simp only [hins] at hp
    rcases List.mem_append.mp hp with hp | hp
    · exact hbk p hp
    · simp at hp
      subst hp
      exact ⟨rfl, hsf⟩
  · intro p hp
    obtain ⟨hk, hsfp, hsome⟩ := hob p hp
    refine ⟨hk, hsfp, ?_⟩
    simp only [mapGet_mapInsert]
    by_cases hb : p.2.bucketName = name <;> simp [hb, hsome]
  · exact hnd
  · intro p hp
    simp only [hins] at hp
    rcases List.mem_append.mp hp with hp | hp
    · exact hcnt p hp
    · simp at hp
      subst hp
      obtain ⟨hz1, hz2⟩ := counts_zero_of_no_bucket s.objects name hnob
      exact ⟨by simp [hz1], by simp [hz2]⟩

theorem Inv_applyDeleteBucket (s : FSMState) (name : String) (hinv : Inv s) :
    Inv (applyDeleteBucket s (.bucketRef name)).1 := by
  obtain ⟨hbk, hob, hnd, hcnt⟩ := hinv
  simp only [applyDeleteBucket]
  refine ⟨?_, ?_, ?_, ?_⟩
  · intro p hp
    exact hbk p (mem_mapErase hp).1
  · intro p hp
    simp only [List.mem_filter] at hp
    obtain ⟨hpm, hpb⟩ := hp
    have hne : p.2.bucketName ≠ name := by simpa using hpb
    obtain ⟨hk, hsf, hsome⟩ := hob p hpm
    refine ⟨hk, hsf, ?_⟩
    simp only [mapGet_mapErase, if_neg hne]
    exact hsome
  · exact hnd.sublist ((List.filter_sublist _).map Prod.fst)
  · intro p hp
    obtain ⟨hpm, hpne⟩ := mem_mapErase hp
    obtain ⟨hc1, hc2⟩ := hcnt p hpm
    have hname : p.2.name ≠ name := by rw [← (hbk p hpm).1]; exact hpne
    obtain ⟨hf1, hf2⟩ := counts_filter_ne name p.2.name hname s.objects
    exact ⟨by rw [hc1, hf1], by rw [hc2, hf2]⟩

theorem Inv_applyCreateObject (s : FSMState) (now : Int)
    (b k : String) (size : Int) (tier checksum contentType : String)
    (encKey : Option String) (shards : Option (List ShardInfo))
    (hinv : Inv s)
    (hbucket : (mapGet s.buckets b).isSome = true)
    (hfresh : mapGet s.objects (objKey b k) = none) :
    Inv (applyCreateObject s now
      (.objectData b k size tier checksum contentType encKey shards)).1 := by
  obtain ⟨hbk, hob, hnd, hcnt⟩ := hinv
  obtain ⟨B, hB⟩ := Option.isSome_iff_exists.mp hbucket
  have hmemB : (b, B) ∈ s.buckets := mapGet_mem hB
  have hsfb : slashFree b := by
    have h1 := hbk _ hmemB
    rw [show b = (b, B).2.name from h1.1]
    exact h1.2
  have hnotin : objKey b k ∉ mapKeys s.objects := (mapGet_eq_none_iff _ _).mp hfresh
  simp only [applyCreateObject]
  have hins := mapInsert_of_get_none
    ({ bucketName := b, objectKey := k, size := size, tier := tier, createdAt := now,
       lastAccessed := now, shards := shards.getD [], encryptionKey := encKey.getD "",
       checksum := checksum, contentType := contentType, metadata := [] } : ObjectMetadata)
    hfresh
  refine ⟨?_, ?_, ?_, ?_⟩
  · intro p hp
    simp only [mapUpdate] at hp
    rcases List.mem_map.mp hp with ⟨q, hq, hpq⟩
    by_cases hqb : q.1 = b
    · rw [if_pos hqb] at hpq
      subst hpq
      exact hbk q hq
    · rw [if_neg hqb] at hpq
      subst hpq
      exact hbk q hq
  · intro p hp
    rw [hins] at hp
    rcases List.mem_append.mp hp with hp | hp
    · obtain ⟨hk1, hsf1, hsome1⟩ := hob p hp
      refine ⟨hk1, hsf1, ?_⟩
      rw [mapGet_mapUpdate]
      by_cases hpb : p.2.bucketName = b
      · rw [if_pos hpb, hpb, hB]
        rfl
      · rw [if_neg hpb]
        exact hsome1
    · simp only [List.mem_singleton] at hp
      subst hp
      refine ⟨rfl, hsfb, ?_⟩
      rw [mapGet_mapUpdate, if_pos rfl, hB]
      rfl
  · rw [hins, mapKeys, List.map_append]
    refine List.Nodup.append hnd (by simp) ?_
    intro a ha hb2
    simp at hb2
    rw [hb2] at ha
    exact hnotin ha
  · intro p hp
    simp only [mapUpdate] at hp
    rcases List.mem_map.mp hp with ⟨q, hq, hpq⟩
    obtain ⟨hqn, hqs⟩ := hbk q hq
    obtain ⟨hc1, hc2⟩ := hcnt q hq
    by_cases hqb : q.1 = b
    · rw [if_pos hqb] at hpq
      subst hpq
      have hname : q.2.name = b := by rw [← hqn, hqb]
      constructor
      · simp only [hins, objCountIn_append_single]
        rw [if_pos hname.symm, hc1]
        push_cast
        ring
      · simp only [hins, sizeSumIn_append_single]
        rw [if_pos hname.symm, hc2]
    · rw [if_neg hqb] at hpq
      subst hpq
      have hname : ¬ (b = q.2.name) := by
        rw [← hqn]
        exact fun hcontr => hqb hcontr.symm
      constructor
      · simp only [hins, objCountIn_append_single]
        rw [if_neg hname, hc1]
        simp
      · simp only [hins, sizeSumIn_append_single]
        rw [if_neg hname, hc2]
        simp

theorem Inv_applyUpdateObject (s : FSMState) (b k : String)
    (tier : Option String) (la : Option Int) (hinv : Inv s) :
    Inv (applyUpdateObject s (.objectPatch b k tier la)).1 := by
  obtain ⟨hbk, hob, hnd, hcnt⟩ := hinv
  simp only [applyUpdateObject]
  refine ⟨hbk, ?_, ?_, ?_⟩
  · intro p hp
    simp only [mapUpdate] at hp
    rcases List.mem_map.mp hp with ⟨q, hq, hpq⟩
    obtain ⟨hk1, hsf1, hsome1⟩ := hob q hq
    by_cases hqk : q.1 = objKey b k
    · rw [if_pos hqk] at hpq
      subst hpq
      exact ⟨hk1, hsf1, hsome1⟩
    · rw [if_neg hqk] at hpq
      subst hpq
      exact ⟨hk1, hsf1, hsome1⟩
  · rw [mapKeys_mapUpdate]
    exact hnd
  · intro p hp
    obtain ⟨ho1, ho2⟩ := counts_mapUpdate (objKey b k)
      (fun o => { o with tier := tier.getD o.tier, lastAccessed := la.getD o.lastAccessed })
      p.2.name (fun x => ⟨rfl, rfl⟩) s.objects
    obtain ⟨hc1, hc2⟩ := hcnt p hp
    exact ⟨by rw [ho1]; exact hc1, by rw [ho2]; exact hc2⟩

theorem Inv_applyUpdateAccessTime (s : FSMState) (now : Int) (b k : String)
    (hinv : Inv s) :
    Inv (applyUpdateAccessTime s now (.objectRef b k)).1 := by
  obtain ⟨hbk, hob, hnd, hcnt⟩ := hinv
  simp only [applyUpdateAccessTime]
  refine ⟨hbk, ?_, ?_, ?_⟩
  · intro p hp
    simp only [mapUpdate] at hp
    rcases List.mem_map.mp hp with ⟨q, hq, hpq⟩
    obtain ⟨hk1, hsf1, hsome1⟩ := hob q hq
    by_cases hqk : q.1 = objKey b k
    · rw [if_pos hqk] at hpq
      subst hpq
      exact ⟨hk1, hsf1, hsome1⟩
    · rw [if_neg hqk] at hpq
      subst hpq
      exact ⟨hk1, hsf1, hsome1⟩
  · rw [mapKeys_mapUpdate]
    exact hnd
  · intro p hp
    obtain ⟨ho1, ho2⟩ := counts_mapUpdate (objKey b k)
      (fun o => { o with lastAccessed := now })
      p.2.name (fun x => ⟨rfl, rfl⟩) s.objects
    obtain ⟨hc1, hc2⟩ := hcnt p hp
    exact ⟨by rw [ho1]; exact hc1, by rw [ho2]; exact hc2⟩

theorem Inv_applyDeleteObject (s : FSMState) (b k : String)
    (hinv : Inv s) (hsfb : slashFree b) :
    Inv (applyDeleteObject s (.objectRef b k)).1 := by
  obtain ⟨hbk, hob, hnd, hcnt⟩ := hinv
  rcases hget : mapGet s.objects (objKey b k) with _ | o
  · simp only [applyDeleteObject, hget]
    exact ⟨hbk, hob, hnd, hcnt⟩
  · have hmem : (objKey b k, o) ∈ s.objects := mapGet_mem hget
    obtain ⟨hkey, hsfo, _⟩ := hob _ hmem
    obtain ⟨hbb, hkk⟩ := objKey_inj b k o.bucketName o.objectKey hsfb hsfo hkey
    simp only [applyDeleteObject, hget]
    refine ⟨?_, ?_, ?_, ?_⟩
    · intro p hp
      simp only [mapUpdate] at hp
      rcases List.mem_map.mp hp with ⟨q, hq, hpq⟩
      by_cases hqb : q.1 = b
      · rw [if_pos hqb] at hpq
        subst hpq
        exact hbk q hq
      · rw [if_neg hqb] at hpq
        subst hpq
        exact hbk q hq
    · intro p hp
      obtain ⟨hpm, _⟩ := mem_mapErase hp
      obtain ⟨hk1, hsf1, hsome1⟩ := hob p hpm
      refine ⟨hk1, hsf1, ?_⟩
      rw [mapGet_mapUpdate]
      by_cases hpb : p.2.bucketName = b
      · rw [if_pos hpb]
        rcases hmg : mapGet s.buckets p.2.bucketName with _ | v
        · rw [hmg] at hsome1
          simp at hsome1
        · rfl
      · rw [if_neg hpb]
        exact hsome1
    · exact hnd.sublist ((mapErase_sublist _ _).map Prod.fst)
    · intro p hp
      simp only [mapUpdate] at hp
      rcases List.mem_map.mp hp with ⟨q, hq, hpq⟩
      obtain ⟨hqn, _⟩ := hbk q hq
      obtain ⟨hc1, hc2⟩ := hcnt q hq
      obtain ⟨he1, he2⟩ := counts_mapErase (objKey b k) o q.2.name s.objects hnd hget
      by_cases hqb : q.1 = b
      · rw [if_pos hqb] at hpq
        subst hpq
        have hname : q.2.name = b := by rw [← hqn, hqb]
        have hob2 : o.bucketName = q.2.name := by rw [← hbb, hname]
        rw [if_pos hob2] at he1
        rw [if_pos hob2] at he2
        constructor
        · show q.2.objectCount - 1 = _
          rw [hc1]
          push_cast [he1]
          ring
        · show q.2.totalSize - o.size = _
          rw [hc2, he2]
          ring
      · rw [if_neg hqb] at hpq
        subst hpq
        have hname : ¬ o.bucketName = q.2.name := by
          intro hcontr
          apply hqb
          rw [← hqn] at hcontr
          rw [← hbb] at hcontr
          exact hcontr.symm
        rw [if_neg hname] at he1
        rw [if_neg hname] at he2
        constructor
        · rw [hc1, he1]
          simp
        · rw [hc2, he2]
          simp

theorem Inv_Apply (s : FSMState) (now : Int) (c : Command)
    (hinv : Inv s) (hstep : ValidStep s c) : Inv (Apply s now (some c)).1 := by
  by_cases h1 : c.type = "create_bucket"
  · simp only [Apply, h1, if_pos, String.reduceEq, if_true, ite_true, if_false, ite_false]
    cases hd : c.data with
    | bucketData name owner acl =>
      have hv : mapGet s.buckets name = none ∧ slashFree name := by
        simpa [ValidStep, h1, hd] using hstep
      exact Inv_applyCreateBucket s now name owner acl ⟨hinv.1, hinv.2.1, hinv.2.2.1, hinv.2.2.2⟩
        hv.1 hv.2
    | bucketRef name => exact hinv
    | objectData b k sz t cs ct ek sh => exact hinv
    | objectPatch b k t la => exact hinv
    | objectRef b k => exact hinv
  · by_cases h2 : c.type = "delete_bucket"
    · simp only [Apply, h1, h2, if_pos, if_neg, if_true, ite_true, if_false, ite_false]
      cases hd : c.data with
      | bucketRef name => exact Inv_applyDeleteBucket s name hinv
      | bucketData name owner acl => exact hinv
      | objectData b k sz t cs ct ek sh => exact hinv
      | objectPatch b k t la => exact hinv
      | objectRef b k => exact hinv
    · by_cases h3 : c.type = "create_object"
      · simp only [Apply, h1, h2, h3, if_pos, if_neg, if_true, ite_true, if_false, ite_false]
        cases hd : c.data with
        | objectData b k sz t cs ct ek sh =>
          have hv : (mapGet s.buckets b).isSome = true ∧
              mapGet s.objects (objKey b k) = none := by
            simpa [ValidStep, h1, h2, h3, hd] using hstep
          exact Inv_applyCreateObject s now b k sz t cs ct ek sh hinv hv.1 hv.2
        | bucketData name owner acl => exact hinv
        | bucketRef name => exact hinv
        | objectPatch b k t la => exact hinv
        | objectRef b k => exact hinv
      · by_cases h4 : c.type = "update_object"
        · simp only [Apply, h1, h2, h3, h4, if_pos, if_neg, if_true, ite_true, if_false,
            ite_false]
          cases hd : c.data with
          | objectPatch b k t la => exact Inv_applyUpdateObject s b k t la hinv
          | bucketData name owner acl => exact hinv
          | bucketRef name => exact hinv
          | objectData b k sz t cs ct ek sh => exact hinv
          | objectRef b k => exact hinv
        · by_cases h5 : c.type = "delete_object"
          · simp only [Apply, h1, h2, h3, h4, h5, if_pos, if_neg, if_true, ite_true,
              if_false, ite_false]
            cases hd : c.data with
            | objectRef b k =>
              have hv : slashFree b := by
                simpa [ValidStep, h1, h2, h3, h4, h5, hd] using hstep
              exact Inv_applyDeleteObject s b k hinv hv
            | bucketData name owner acl => exact hinv
            | bucketRef name => exact hinv
            | objectData b k sz t cs ct ek sh => exact hinv
            | objectPatch b k t la => exact hinv
          · by_cases h6 : c.type = "update_access_time"
            · simp only [Apply, h1, h2, h3, h4, h5, h6, if_pos, if_neg, if_true, ite_true,
                if_false, ite_false]
              cases hd : c.data with
              | objectRef b k => exact Inv_applyUpdateAccessTime s now b k hinv
              | bucketData name owner acl => exact hinv
              | bucketRef name => exact hinv
              | objectData b k sz t cs ct ek sh => exact hinv
              | objectPatch b k t la => exact hinv
            · simp only [Apply, h1, h2, h3, h4, h5, h6, if_neg, if_false, ite_false]
              exact hinv

theorem Inv_empty : Inv emptyFSM := by
  refine ⟨?_, ?_, ?_, ?_⟩ <;> simp [emptyFSM, mapKeys, CountersAccurate]

theorem Inv_applyCmds :
    ∀ (entries : List (Int × Command)) (s : FSMState),
      Inv s → ValidSeq s entries → Inv (applyCmds s entries) := by
  intro entries
  induction entries with
  | nil =>
    intro s hinv _
    simpa [applyCmds] using hinv
  | cons e rest ih =>
    intro s hinv hseq
    rw [ValidSeq] at hseq
    have hstep := Inv_Apply s e.1 e.2 hinv hseq.1
    simpa [applyCmds] using ih _ hstep hseq.2

/--
C2 counterexample: the counter invariant fails on the code as claimed
(over all command sequences): creating the same object key twice in
bucket `"b"` leaves one stored object but `object_count = 2` and
`total_size = 10`, because `applyCreateObject` bumps the counters even
when it overwrites an existing entry.
-/
theorem counters_drift_counterexample :
    ¬ CountersAccurate (applyCmds emptyFSM
      [(0, { type := "create_bucket", data := .bucketData "b" "o" none }),
       (1, { type := "create_object", data := .objectData "b" "k" 5 "hot" "c" "t" none none }),
       (2, { type := "create_object", data := .objectData "b" "k" 5 "hot" "c" "t" none none })]) := by
  decide

/--
C2 amended: after any sequence of commands that is valid in the sense of
the spec's rejection table — every `create_bucket` uses an absent,
slash-free name, every `create_object` targets an existing bucket and an
absent composite key, and `delete_object` names are slash-free — every
bucket's `object_count` equals the number of stored objects with that
`bucket_name` and its `total_size` equals the sum of their sizes.
(The unamended claim, over all sequences, fails: see the
counterexample.)
-/
theorem counters_accurate_of_valid_seq (entries : List (Int × Command))
    (h : ValidSeq emptyFSM entries) :
    CountersAccurate (applyCmds emptyFSM entries) :=
  (Inv_applyCmds entries emptyFSM Inv_empty h).2.2.2

/-- Witness for C2 (amended) on a concrete valid command sequence. -/
theorem counters_accurate_of_valid_seq_witness :
    CountersAccurate (applyCmds emptyFSM
      [(0, { type := "create_bucket", data := .bucketData "b" "o" none }),
       (1, { type := "create_object", data := .objectData "b" "k" 5 "hot" "c" "t" none none }),
       (2, { type := "create_object", data := .objectData "b" "k2" 7 "hot" "c" "t" none none }),
       (3, { type := "delete_object", data := .objectRef "b" "k" }),
       (4, { type := "update_access_time", data := .objectRef "b" "k2" })]) :=
  counters_accurate_of_valid_seq _ (by decide)

end IntelliStore
